import Mathlib

/-!
Verification of the futaba-bot event-ingestion and streak engine.

Shallow embedding of the core logic of `src/eueoeo.rs` and `src/main.rs`:
the snowflake codec (`into_snowflakes` / `from_snowflakes`), the event
validator (`check_message`), the ledger write path (`incr_counter`), the
backfill start cursor (`retrieve_missing_messages`), and the missing-day
walk of `fetch_user_details`.

Machine integers (Rust `i64`) are modelled as `Int`; the claims quantify
over the supported snowflake range, where no `i64` overflow occurs, so
arithmetic is exact there.  Rust `<<` / `>>` on in-range `i64` are `* 2 ^ 22`
and `Int.fdiv (2 ^ 22)` (arithmetic shift = floor division); Rust `/` is
`Int.tdiv` (truncation toward zero).
-/

/-- Discord epoch in milliseconds, `1420070400000i64` in the source. -/
def discordEpochMs : Int := 1420070400000

/-- Embedding of `impl IntoSnowflakes for DateTime<TZ>` (`src/main.rs:42`,
`src/discord.rs:74`): `ts = timestamp() * 1000; (ts - 1420070400000) << 22`.
The argument is the instant's Unix timestamp in whole seconds
(`chrono::DateTime::timestamp`). -/
def into_snowflakes (tsSec : Int) : Int :=
  (tsSec * 1000 - discordEpochMs) * 2 ^ 22

/-- Encoding an instant given at millisecond precision: `timestamp()`
floors milliseconds to whole seconds before `into_snowflakes` runs. -/
def into_snowflakes_ms (tMs : Int) : Int :=
  into_snowflakes (tMs.fdiv 1000)

/-- Embedding of `impl IntoSnowflakes for Duration` (`src/main.rs:50`):
`num_milliseconds() << 22`. -/
def duration_into_snowflakes (ms : Int) : Int :=
  ms * 2 ^ 22

/-- Embedding of `from_snowflakes` (`src/main.rs:55`, `src/discord.rs:87`):
`((snowflakes >> 22) + 1420070400000) / 1000` seconds; the decoded
`DateTime` carries whole seconds (`from_timestamp(secs, 0)`).  Rust `/`
truncates toward zero, i.e. `Int.tdiv`. -/
def from_snowflakes (sf : Int) : Int :=
  (sf.fdiv (2 ^ 22) + discordEpochMs).tdiv 1000

/-- The decoded instant at millisecond precision: the decoder produces a
whole-second `DateTime`, i.e. `from_snowflakes sf * 1000` milliseconds. -/
def from_snowflakes_ms (sf : Int) : Int :=
  from_snowflakes sf * 1000

/-- The `single_day_snowflakes_delta` of `fetch_user_details`
(`src/eueoeo.rs:460`): `Duration::days(1).into_snowflakes()`,
i.e. 86400000 milliseconds shifted left by 22 bits. -/
def dayDelta : Int := duration_into_snowflakes 86400000

theorem dayDelta_pos : 0 < dayDelta := by
  norm_num [dayDelta, duration_into_snowflakes]

/-! ## Reference time zone and calendar dates

The reference time zone is the fixed offset UTC+9
(`FixedOffset::east(9 * 3600)`).  A `chrono` local calendar date is
identified with its day number since 1970-01-01 in that offset. -/

/-- Local day number (days since 1970-01-01 in UTC+9) of a Unix timestamp
in seconds: `.with_timezone(&FixedOffset::east(9*3600)).date()`. -/
def localDayOfSec (s : Int) : Int := (s + 9 * 3600).fdiv 86400

/-- Unix timestamp (seconds) of local midnight of day `d` in UTC+9:
`.date().and_hms(0, 0, 0).timestamp()`. -/
def dayStartTs (d : Int) : Int := d * 86400 - 9 * 3600

/-- Civil date `(year, month, day)` from a day number since 1970-01-01
(proleptic Gregorian calendar, as used by `chrono::Date::month`/`day`). -/
def civilFromDays (z : Int) : Int × Int × Int :=
  let zz := z + 719468
  let era := zz.fdiv 146097
  let doe := (zz - era * 146097).toNat
  let yoe := (doe - doe / 1460 + doe / 36524 - doe / 146096) / 365
  let doy := doe - (365 * yoe + yoe / 4 - yoe / 100)
  let mp := (5 * doy + 2) / 153
  let d := doy - (153 * mp + 2) / 5 + 1
  let m : Int := (mp : Int) + (if mp < 10 then 3 else -9)
  let y : Int := (yoe : Int) + era * 400
  (if m ≤ 2 then y + 1 else y, m, (d : Int))

/-! ## Event validator -/

/-- The check-in token `EUEOEO` (`src/eueoeo.rs:20`). -/
def EUEOEO : String := "으어어"

/-- A raw inbound Discord message as far as `check_message` inspects it. -/
structure Message where
  author_bot : Bool
  edited : Bool
  content : String
  timestampMs : Int
  deriving Repr

/-- Local calendar date (year, month, day) of a message in UTC+9. -/
def messageLocalDate (m : Message) : Int × Int × Int :=
  civilFromDays (localDayOfSec (m.timestampMs.fdiv 1000))

/-- Embedding of `check_message` (`src/eueoeo.rs:37-51`): reject bot
authors and edited messages; accept unconditionally on April 1 (local
date in UTC+9); otherwise accept iff the content equals `EUEOEO`. -/
def check_message (m : Message) : Bool :=
  if m.author_bot || m.edited then false
  else
    let date := messageLocalDate m
    if date.2.1 = 4 && date.2.2 = 1 then true
    else m.content == EUEOEO

/-! ## Ledger store

The sqlite tables `history (message_id UNIQUE, user_id, date)` and
`users (user_id, name, count, longest_streaks, current_streaks, last_date)`.
The migration files are not part of `src/`; the row shapes are taken from
the queries in `src/eueoeo.rs` / `src/main.rs`, and a fresh participant's
default field values are modelled from the spec (see `freshUserRow`). -/

/-- One row of the `history` table: `(message_id, user_id, date)` where
`date` is the local-midnight timestamp stored by `incr_counter`. -/
structure HistoryRow where
  message_id : Int
  user_id : Int
  date : Int
  deriving Repr, DecidableEq

/-- One row of the `users` table (the Participant aggregate).
`last_date` is `none` until the participant's first counted event. -/
structure UserRow where
  name : String
  count : Int
  longest_streaks : Int
  current_streaks : Int
  last_date : Option Int
  deriving Repr, DecidableEq

/-- Modelled from the spec: the migration files defining the `users`
table's column defaults are not under `src/`.  Per §3 of the spec a
participant is created via the membership-sync upsert with zero totals,
zero streaks and `last_date = None` until the first event. -/
def freshUserRow (name : String) : UserRow :=
  { name := name, count := 0, longest_streaks := 0, current_streaks := 0,
    last_date := none }

/-- The persistent database state: the `history` table and the `users`
table (an association list keyed by `user_id`). -/
structure DbState where
  history : List HistoryRow
  users : List (Int × UserRow)
  deriving Repr, DecidableEq

/-- Outcome of one `incr_counter` call.  The Rust function returns
`Ok(true)` on `accepted` and `Ok(false)` on both other paths, logging
which path was taken; the spec names the three outcomes. -/
inductive RecordResult where
  | accepted
  | duplicate
  | rejectedUnknownActor
  deriving Repr, DecidableEq

/-- `SELECT ... FROM users WHERE user_id = ?` (first matching row). -/
def findUser (users : List (Int × UserRow)) (uid : Int) : Option UserRow :=
  match users with
  | [] => none
  | p :: t => if p.1 = uid then some p.2 else findUser t uid

/-- `UPDATE users SET ... WHERE user_id = ?` (updates every matching row). -/
def updateUser (users : List (Int × UserRow)) (uid : Int)
    (f : UserRow → UserRow) : List (Int × UserRow) :=
  match users with
  | [] => []
  | p :: t => (if p.1 = uid then (p.1, f p.2) else p) :: updateUser t uid f

/-- Whether the `history` table already holds `message_id` (the UNIQUE
constraint that makes the INSERT fail). -/
def hasMessage (db : DbState) (mid : Int) : Bool :=
  db.history.any (fun r => r.message_id == mid)

/-- An inbound message as far as `incr_counter` inspects it. -/
structure EventMsg where
  id : Int
  author_id : Int
  timestampMs : Int
  deriving Repr, DecidableEq

/-- The message's local calendar day in UTC+9 (`incr_counter`'s
`message.timestamp.with_timezone(&offset).date()`). -/
def msgDay (m : EventMsg) : Int := localDayOfSec (m.timestampMs.fdiv 1000)

/-- Embedding of `Handler::incr_counter` (`src/eueoeo.rs:200-278`,
`src/main.rs:219-297`).  Attempts the `history` INSERT (the duplicate-key
constraint violation is caught and yields `duplicate`); on success looks
up the author's `users` row — if absent the function returns with the
history row already inserted (`rejectedUnknownActor`); otherwise computes
the new streak pair and UPDATEs the row. -/
def incr_counter (db : DbState) (msg : EventMsg) : RecordResult × DbState :=
  let message_id := msg.id
  let author_id := msg.author_id
  let message_day := msgDay msg
  let prev_date := dayStartTs (message_day - 1)
  let message_date := dayStartTs message_day
  if hasMessage db message_id then
    (.duplicate, db)
  else
    let db1 : DbState :=
      { db with history := ⟨message_id, author_id, message_date⟩ :: db.history }
    match findUser db1.users author_id with
    | none => (.rejectedUnknownActor, db1)
    | some data =>
      let pair :=
        if data.last_date = some prev_date then
          let current_streaks := data.current_streaks + 1
          (max data.longest_streaks current_streaks, current_streaks)
        else
          (data.longest_streaks, 1)
      (.accepted,
        { db1 with
            users := updateUser db1.users author_id (fun u =>
              { u with
                  count := u.count + 1,
                  longest_streaks := pair.1,
                  current_streaks := pair.2,
                  last_date := some message_date }) })

/-- Folding a list of messages through `incr_counter`, keeping the
per-message outcomes (the backfill loop's per-page processing). -/
def runTrace (db : DbState) (msgs : List EventMsg) :
    List RecordResult × DbState :=
  match msgs with
  | [] => ([], db)
  | m :: t =>
    let r := incr_counter db m
    let rest := runTrace r.2 t
    (r.1 :: rest.1, rest.2)

/-- Folding a list of messages through `incr_counter`, state only. -/
def runMsgs (db : DbState) (msgs : List EventMsg) : DbState :=
  msgs.foldl (fun s m => (incr_counter s m).2) db

/-! ## Backfill start cursor -/

/-- `SELECT message_id FROM history ORDER BY message_id DESC LIMIT 1`
(`src/eueoeo.rs:545`, `src/main.rs:599`): the highest recorded event id,
if any row exists. -/
def latest_event_id (db : DbState) : Option Int :=
  (db.history.map HistoryRow.message_id).max?

/-- The start cursor chosen by `retrieve_missing_messages`
(`src/eueoeo.rs:544-554`, `src/main.rs:598-608`): the highest recorded
`message_id` when the `history` table is non-empty, and the configured
`init_message_id` seed otherwise. -/
def start_cursor (db : DbState) (init_message_id : Int) : Int :=
  match latest_event_id db with
  | some m => m
  | none => init_message_id

/-! ## Missing-day walk of `fetch_user_details` -/

/-- The inner `while` loop of the missing-day computation
(`src/eueoeo.rs:465-471`): for one history item, advance the day-window
cursor while `item >= date_cursor_0`, pushing `date_cursor_0` whenever
`item > date_cursor_1` (`date_cursor_1` is always `date_cursor_0 +
single_day_snowflakes_delta`, so only `date_cursor_0` is threaded). -/
def advanceWindows (item : Int) (c0 : Int) (acc : List Int) :
    Int × List Int :=
  if c0 ≤ item then
    advanceWindows item (c0 + dayDelta)
      (if c0 + dayDelta < item then acc ++ [c0] else acc)
  else (c0, acc)
termination_by (item + 1 - c0).toNat
decreasing_by
  have hd : (0 : Int) < dayDelta := dayDelta_pos
  omega

/-- The full walk over the participant's ascending yearly history
(`src/eueoeo.rs:461-474`), returning the pushed window-start snowflakes
(the source converts each pushed cursor to a date for display via
`from_snowflakes(..).date()`, a postcomposition). -/
def missingWalk (beginSf : Int) (history : List Int) : List Int :=
  (history.foldl (fun s item => advanceWindows item s.1 s.2) (beginSf, [])).2

/-- The `MissingDays` result type (`src/eueoeo.rs:179-182`), with the
detailed branch carrying window-start snowflakes (see `missingWalk`). -/
inductive MissingDays where
  | Detailed : List Int → MissingDays
  | Count : Int → MissingDays
  deriving Repr, DecidableEq

/-- `MissingDays::DETAIL_LIMIT_COUNT` (`src/eueoeo.rs:185`). -/
def DETAIL_LIMIT_COUNT : Int := 10

/-- The missing-day portion of `fetch_user_details`
(`src/eueoeo.rs:454-478`): `missing_count = days - yearly_count`; below
the detail limit run the window walk, otherwise return the count. -/
def missing_days (days : Int) (beginSf : Int) (history : List Int) :
    MissingDays :=
  let yearly_count : Int := history.length
  let missing_count := days - yearly_count
  if missing_count < DETAIL_LIMIT_COUNT then
    .Detailed (missingWalk beginSf history)
  else
    .Count missing_count

/-! ## Derived inputs used by the claims -/

/-- A run of `n` consecutive-day events for actor `uid`: the `j`-th event
(`0 ≤ j < n`) has id `base + j` and is timestamped at local midnight of
day `d + 1 + j` in UTC+9. -/
def consecMsgs (uid base d : Int) (n : Nat) : List EventMsg :=
  (List.range n).map (fun j => ⟨base + j, uid, dayStartTs (d + 1 + j) * 1000⟩)

/-- Number of events in a processed page that were accepted for actor
`uid`, given the page's messages and their `incr_counter` outcomes. -/
def acceptedCountFor (uid : Int) (msgs : List EventMsg)
    (results : List RecordResult) : Int :=
  ((msgs.zip results).filter
    (fun p => p.1.author_id == uid && p.2 == RecordResult.accepted)).length

/-! ## Helper lemmas on the ledger model -/

theorem advanceWindows_step (item c0 : Int) (acc : List Int)
    (h : c0 ≤ item) :
    advanceWindows item c0 acc =
      advanceWindows item (c0 + dayDelta)
        (if c0 + dayDelta < item then acc ++ [c0] else acc) := by
  rw [advanceWindows]
  rw [if_pos h]

theorem advanceWindows_stop (item c0 : Int) (acc : List Int)
    (h : ¬ c0 ≤ item) :
    advanceWindows item c0 acc = (c0, acc) := by
  rw [advanceWindows]
  rw [if_neg h]

theorem findUser_updateUser_self (us : List (Int × UserRow)) (uid : Int)
    (f : UserRow → UserRow) :
    findUser (updateUser us uid f) uid = (findUser us uid).map f := by
  induction us with
  | nil => rfl
  | cons p t ih =>
    by_cases h : p.1 = uid
    · simp [findUser, updateUser, h]
    · simpa [findUser, updateUser, h] using ih

theorem findUser_updateUser_ne (us : List (Int × UserRow)) (uid uid' : Int)
    (f : UserRow → UserRow) (h : uid' ≠ uid) :
    findUser (updateUser us uid f) uid' = findUser us uid' := by
  induction us with
  | nil => rfl
  | cons p t ih =>
    by_cases hp : p.1 = uid
    · have hne : ¬ p.1 = uid' := by
        rw [hp]; exact fun hc => h hc.symm
      simp only [updateUser, findUser, if_pos hp, if_neg hne]
      simpa [findUser, hne] using ih
    · by_cases hq : p.1 = uid'
      · simp only [updateUser, findUser, if_neg hp, if_pos hq]
      · simp only [updateUser, findUser, if_neg hp, if_neg hq]
        exact ih

theorem hasMessage_eq_false_iff (db : DbState) (mid : Int) :
    hasMessage db mid = false ↔
      mid ∉ db.history.map HistoryRow.message_id := by
  simp [hasMessage, List.any_eq_true, List.mem_map]

/-- How `incr_counter` behaves on a duplicate event id. -/
theorem incr_counter_dup (db : DbState) (msg : EventMsg)
    (h : hasMessage db msg.id = true) :
    incr_counter db msg = (.duplicate, db) := by
  simp [incr_counter, h]

/-- How `incr_counter` behaves on a fresh event id from an unknown actor:
the inserted history row remains. -/
theorem incr_counter_unknown (db : DbState) (msg : EventMsg)
    (h : hasMessage db msg.id = false)
    (hu : findUser db.users msg.author_id = none) :
    incr_counter db msg =
      (.rejectedUnknownActor,
        { db with history :=
            ⟨msg.id, msg.author_id, dayStartTs (msgDay msg)⟩ :: db.history }) := by
  simp [incr_counter, h, hu]

/-- How `incr_counter` behaves on a fresh event id from a known actor. -/
theorem incr_counter_known (db : DbState) (msg : EventMsg) (data : UserRow)
    (h : hasMessage db msg.id = false)
    (hu : findUser db.users msg.author_id = some data) :
    incr_counter db msg =
      (.accepted,
        { history := ⟨msg.id, msg.author_id, dayStartTs (msgDay msg)⟩ :: db.history,
          users := updateUser db.users msg.author_id (fun u =>
            { u with
                count := u.count + 1,
                longest_streaks :=
                  if data.last_date = some (dayStartTs (msgDay msg - 1)) then
                    max data.longest_streaks (data.current_streaks + 1)
                  else data.longest_streaks,
                current_streaks :=
                  if data.last_date = some (dayStartTs (msgDay msg - 1)) then
                    data.current_streaks + 1
                  else 1,
                last_date := some (dayStartTs (msgDay msg)) }) }) := by
  by_cases hl : data.last_date = some (dayStartTs (msgDay msg - 1)) <;>
    simp [incr_counter, h, hu, hl]

/-! ## Claim C3 — snowflake codec round trip -/

/-- Claim C3, counterexample: at the in-range instant
t = 1420070400500 ms (half a second past the Discord epoch),
`decode(encode(t))` is 1420070400000 ms, not t truncated to millisecond
precision (which is t itself): the codec drops sub-second precision
because `into_snowflakes` reads `timestamp()` in whole seconds. -/
theorem C3_roundtrip_ms_counterexample :
    from_snowflakes_ms (into_snowflakes_ms 1420070400500) = 1420070400000 ∧
      (1420070400000 : Int) ≠ 1420070400500 := by
  constructor
  · decide
  · decide

/-- Claim C3 (amended): for every instant within the supported snowflake
range, `decode(encode(t))` equals t truncated to SECOND precision (not
millisecond precision): encode and decode are mutually inverse up to
whole-second precision loss. -/
theorem C3_roundtrip_second_precision (tMs : Int)
    (hlo : discordEpochMs ≤ tMs)
    (hhi : tMs < discordEpochMs + 2 ^ 41) :
    from_snowflakes_ms (into_snowflakes_ms tMs) = 1000 * tMs.fdiv 1000 := by
  unfold from_snowflakes_ms from_snowflakes into_snowflakes_ms into_snowflakes
  rw [Int.mul_fdiv_cancel _ (by norm_num : ((2:Int) ^ 22) ≠ 0)]
  rw [sub_add_cancel]
  rw [Int.mul_tdiv_cancel _ (by norm_num : (1000:Int) ≠ 0)]
  ring

/-- Witness for `C3_roundtrip_second_precision` at the concrete in-range
instant 1420070401234 ms. -/
theorem C3_roundtrip_second_precision_witness :
    from_snowflakes_ms (into_snowflakes_ms 1420070401234) =
      1000 * (1420070401234 : Int).fdiv 1000 :=
  C3_roundtrip_second_precision 1420070401234 (by decide) (by decide)

/-! ## Claim C5 — backfill start cursor -/

/-- Claim C5, counterexample: with one recorded event (id 5) and an
operator seed of 10, `retrieve_missing_messages` starts paging from 5,
the highest recorded id, not from max(latest, seed) = 10: the seed is
consulted only when the history table is empty. -/
theorem C5_start_cursor_counterexample :
    start_cursor { history := [⟨5, 1, 0⟩], users := [] } 10 = 5 ∧
      ¬ start_cursor { history := [⟨5, 1, 0⟩], users := [] } 10 = max 5 10 := by
  constructor
  · decide
  · decide

/-- Claim C5 (amended): the backfill start cursor is the Ledger Store's
highest recorded event id whenever any HistoryRecord exists (there is no
separately persisted cursor: it coincides with `latest_event_id`), and
the operator-supplied seed exactly when the history is empty; a seed
exceeding the highest recorded event id is ignored. -/
theorem C5_start_cursor_choice (db : DbState) (seed : Int) :
    (db.history = [] → start_cursor db seed = seed) ∧
    (∀ m, latest_event_id db = some m → start_cursor db seed = m) := by
  constructor
  · intro h
    simp [start_cursor, latest_event_id, h]
  · intro m hm
    simp [start_cursor, hm]

/-- Witness for `C5_start_cursor_choice`: an empty history uses the seed
7; a history holding id 5 starts from 5. -/
theorem C5_start_cursor_choice_witness :
    start_cursor { history := [], users := [] } 7 = 7 ∧
      start_cursor { history := [⟨5, 1, 0⟩], users := [] } 7 = 5 :=
  ⟨(C5_start_cursor_choice { history := [], users := [] } 7).1 rfl,
   (C5_start_cursor_choice { history := [⟨5, 1, 0⟩], users := [] } 7).2 5
     (by decide)⟩

/-! ## Claim C1 — first event of a participant with no prior streak state -/

/-- Claim C1, counterexample: a registered participant with no prior
state (fresh row, `last_date = None`) posts their first valid event on
2024-01-01 (KST).  The resulting state is `(current = 1, longest = 0)`:
`incr_counter`'s non-consecutive branch leaves `longest_streaks` at the
prior value, so the claimed `longest = max(prior_longest, 1) = 1` (and
the claimed concrete `(current = 1, longest = 1)`) does not hold. -/
theorem C1_first_event_counterexample :
    ((findUser
        (incr_counter { history := [], users := [(1, freshUserRow "A")] }
          ⟨100, 1, dayStartTs 19723 * 1000⟩).2.users 1).map
      (fun u => (u.current_streaks, u.longest_streaks))) = some (1, 0) ∧
    ¬ ((0 : Int) = max 0 1) := by
  constructor
  · decide
  · decide

/-- Claim C1 (amended): recording the first valid event of a participant
with no prior streak state (`last_date = None`) sets `current_streak` to
1 and leaves `longest_streak` unchanged at the prior value (for a fresh
participant, 0 — not `max(prior_longest, 1)`), while incrementing
`count` and setting `last_date` to the event's date. -/
theorem C1_first_event (db : DbState) (msg : EventMsg) (data : UserRow)
    (hid : hasMessage db msg.id = false)
    (hu : findUser db.users msg.author_id = some data)
    (hl : data.last_date = none) :
    (incr_counter db msg).1 = .accepted ∧
    findUser (incr_counter db msg).2.users msg.author_id =
      some { data with
               count := data.count + 1,
               current_streaks := 1,
               last_date := some (dayStartTs (msgDay msg)) } := by
  have hne : data.last_date ≠ some (dayStartTs (msgDay msg - 1)) := by
    rw [hl]; exact fun hc => Option.noConfusion hc
  rw [incr_counter_known db msg data hid hu]
  refine ⟨rfl, ?_⟩
  rw [findUser_updateUser_self, hu]
  simp [hne]

/-- Witness for `C1_first_event`: the concrete fresh participant of the
counterexample scenario. -/
theorem C1_first_event_witness :
    (incr_counter { history := [], users := [(1, freshUserRow "A")] }
        ⟨100, 1, dayStartTs 19723 * 1000⟩).1 = .accepted ∧
    findUser
        (incr_counter { history := [], users := [(1, freshUserRow "A")] }
          ⟨100, 1, dayStartTs 19723 * 1000⟩).2.users 1 =
      some { freshUserRow "A" with
               count := (freshUserRow "A").count + 1,
               current_streaks := 1,
               last_date := some (dayStartTs (msgDay ⟨100, 1, dayStartTs 19723 * 1000⟩)) } :=
  C1_first_event { history := [], users := [(1, freshUserRow "A")] }
    ⟨100, 1, dayStartTs 19723 * 1000⟩ (freshUserRow "A") rfl rfl rfl

/-! ## Claim C2 — event from an unknown actor -/

/-- Claim C2, counterexample: an event from an actor with no Participant
row yields the unknown-actor outcome, but the attempt is NOT free of
persisted mutation: the `history` INSERT ran before the user lookup and
is never rolled back, so a HistoryRecord row (id 100) remains. -/
theorem C2_unknown_actor_counterexample :
    (incr_counter { history := [], users := [] }
        ⟨100, 1, dayStartTs 19723 * 1000⟩).1 = .rejectedUnknownActor ∧
    (100 : Int) ∈
      ((incr_counter { history := [], users := [] }
          ⟨100, 1, dayStartTs 19723 * 1000⟩).2.history.map
        HistoryRow.message_id) := by
  constructor
  · decide
  · decide

/-- Claim C2 (amended): when the event's actor has no Participant row,
`incr_counter` returns the unknown-actor outcome and leaves every
Participant row untouched, but the HistoryRecord row inserted before the
lookup remains persisted (there is no enclosing transaction). -/
theorem C2_unknown_actor (db : DbState) (msg : EventMsg)
    (hid : hasMessage db msg.id = false)
    (hu : findUser db.users msg.author_id = none) :
    (incr_counter db msg).1 = .rejectedUnknownActor ∧
    (incr_counter db msg).2.users = db.users ∧
    (incr_counter db msg).2.history =
      ⟨msg.id, msg.author_id, dayStartTs (msgDay msg)⟩ :: db.history := by
  rw [incr_counter_unknown db msg hid hu]
  exact ⟨rfl, rfl, rfl⟩

/-- Witness for `C2_unknown_actor` at the counterexample's input. -/
theorem C2_unknown_actor_witness :
    (incr_counter { history := [], users := [] }
        ⟨100, 1, dayStartTs 19723 * 1000⟩).1 = .rejectedUnknownActor ∧
    (incr_counter { history := [], users := [] }
        ⟨100, 1, dayStartTs 19723 * 1000⟩).2.users = [] ∧
    (incr_counter { history := [], users := [] }
        ⟨100, 1, dayStartTs 19723 * 1000⟩).2.history =
      [⟨100, 1, dayStartTs (msgDay ⟨100, 1, dayStartTs 19723 * 1000⟩)⟩] :=
  C2_unknown_actor { history := [], users := [] }
    ⟨100, 1, dayStartTs 19723 * 1000⟩ rfl rfl

/-! ## Claim C6 — streak reset on non-consecutive events -/

/-- Claim C6 (confirmed): for a participant with prior state
(`last_date = some d`), a valid event whose date is not
`last_date + 1 day` — a gap, a same-day repeat (`d` equals the event's
own date), or an out-of-order older event — sets `current_streak` to 1
and leaves `longest_streak` unchanged, because `incr_counter` only
compares `last_date` against the event's previous day. -/
theorem C6_streak_reset (db : DbState) (msg : EventMsg) (data : UserRow)
    (d : Int)
    (hid : hasMessage db msg.id = false)
    (hu : findUser db.users msg.author_id = some data)
    (hl : data.last_date = some d)
    (hne : d ≠ dayStartTs (msgDay msg - 1)) :
    (incr_counter db msg).1 = .accepted ∧
    findUser (incr_counter db msg).2.users msg.author_id =
      some { data with
               count := data.count + 1,
               current_streaks := 1,
               last_date := some (dayStartTs (msgDay msg)) } := by
  have hne' : data.last_date ≠ some (dayStartTs (msgDay msg - 1)) := by
    rw [hl]
    intro hc
    exact hne (Option.some.inj hc)
  rw [incr_counter_known db msg data hid hu]
  refine ⟨rfl, ?_⟩
  rw [findUser_updateUser_self, hu]
  simp [hne']

/-- Witness for `C6_streak_reset`: a same-day repeat.  The participant's
`last_date` is already 2024-01-01 (KST) and a second valid event arrives
on 2024-01-01: the streak resets to `current = 1` (with
`longest_streaks` kept at 5) instead of being a no-op. -/
theorem C6_streak_reset_witness :
    (incr_counter
        { history := [],
          users := [(1, ⟨"A", 7, 5, 3, some (dayStartTs 19723)⟩)] }
        ⟨100, 1, dayStartTs 19723 * 1000⟩).1 = .accepted ∧
    findUser
        (incr_counter
          { history := [],
            users := [(1, ⟨"A", 7, 5, 3, some (dayStartTs 19723)⟩)] }
          ⟨100, 1, dayStartTs 19723 * 1000⟩).2.users 1 =
      some { (⟨"A", 7, 5, 3, some (dayStartTs 19723)⟩ : UserRow) with
               count := (7 : Int) + 1,
               current_streaks := 1,
               last_date := some (dayStartTs (msgDay ⟨100, 1, dayStartTs 19723 * 1000⟩)) } :=
  C6_streak_reset
    { history := [], users := [(1, ⟨"A", 7, 5, 3, some (dayStartTs 19723)⟩)] }
    ⟨100, 1, dayStartTs 19723 * 1000⟩
    ⟨"A", 7, 5, 3, some (dayStartTs 19723)⟩
    (dayStartTs 19723) rfl rfl rfl (by decide)

/-! ## Claim C9 — idempotency of `record` on a duplicate event id -/

/-- Claim C9 (confirmed): for a registered actor and a fresh event id,
calling `incr_counter` twice with the same event yields `accepted` then
`duplicate`; the second call leaves the database exactly as the first
call left it, and the Participant's `count` (and `last_date`) changed
exactly once, on the first call. -/
theorem C9_idempotent (db : DbState) (msg : EventMsg) (u : UserRow)
    (hid : hasMessage db msg.id = false)
    (hu : findUser db.users msg.author_id = some u) :
    (incr_counter db msg).1 = .accepted ∧
    (incr_counter (incr_counter db msg).2 msg).1 = .duplicate ∧
    (incr_counter (incr_counter db msg).2 msg).2 = (incr_counter db msg).2 ∧
    ∃ u1, findUser (incr_counter db msg).2.users msg.author_id = some u1 ∧
      u1.count = u.count + 1 ∧
      u1.last_date = some (dayStartTs (msgDay msg)) := by
  have hk := incr_counter_known db msg u hid hu
  have hdupflag : hasMessage (incr_counter db msg).2 msg.id = true := by
    rw [hk]
    simp [hasMessage]
  have hd := incr_counter_dup (incr_counter db msg).2 msg hdupflag
  refine ⟨by rw [hk], by rw [hd], by rw [hd], ?_⟩
  rw [hk]
  rw [findUser_updateUser_self, hu]
  by_cases hl : u.last_date = some (dayStartTs (msgDay msg - 1)) <;>
    simp [hl]

/-- Witness for `C9_idempotent` at a concrete registered actor. -/
theorem C9_idempotent_witness :
    (incr_counter { history := [], users := [(1, freshUserRow "A")] }
        ⟨100, 1, dayStartTs 19723 * 1000⟩).1 = .accepted ∧
    (incr_counter
        (incr_counter { history := [], users := [(1, freshUserRow "A")] }
          ⟨100, 1, dayStartTs 19723 * 1000⟩).2
        ⟨100, 1, dayStartTs 19723 * 1000⟩).1 = .duplicate ∧
    (incr_counter
        (incr_counter { history := [], users := [(1, freshUserRow "A")] }
          ⟨100, 1, dayStartTs 19723 * 1000⟩).2
        ⟨100, 1, dayStartTs 19723 * 1000⟩).2 =
      (incr_counter { history := [], users := [(1, freshUserRow "A")] }
        ⟨100, 1, dayStartTs 19723 * 1000⟩).2 ∧
    ∃ u1, findUser
        (incr_counter { history := [], users := [(1, freshUserRow "A")] }
          ⟨100, 1, dayStartTs 19723 * 1000⟩).2.users 1 = some u1 ∧
      u1.count = (freshUserRow "A").count + 1 ∧
      u1.last_date = some (dayStartTs (msgDay ⟨100, 1, dayStartTs 19723 * 1000⟩)) :=
  C9_idempotent { history := [], users := [(1, freshUserRow "A")] }
    ⟨100, 1, dayStartTs 19723 * 1000⟩ (freshUserRow "A") rfl rfl

/-! ## Claim C8 — event validator rules and their order -/

/-- Claim C8 (confirmed): `check_message` rejects every bot-authored or
edited message; for surviving messages it accepts unconditionally when
the local calendar date in UTC+9 is April 1 (any year), and otherwise
accepts exactly when the content equals the check-in token `EUEOEO`
(exact string equality, no trimming).  The April-1 rule bypasses the
content check but never the bot/edited checks. -/
theorem C8_validator (m : Message) :
    (m.author_bot = true → check_message m = false) ∧
    (m.edited = true → check_message m = false) ∧
    (m.author_bot = false → m.edited = false →
      (messageLocalDate m).2.1 = 4 → (messageLocalDate m).2.2 = 1 →
      check_message m = true) ∧
    (m.author_bot = false → m.edited = false →
      ¬ ((messageLocalDate m).2.1 = 4 ∧ (messageLocalDate m).2.2 = 1) →
      (check_message m = true ↔ m.content = EUEOEO)) := by
  refine ⟨?_, ?_, ?_, ?_⟩
  · intro h
    simp [check_message, h]
  · intro h
    simp [check_message, h]
  · intro hb he h4 h1
    simp [check_message, hb, he, h4, h1]
  · intro hb he hnot
    by_cases h4 : (messageLocalDate m).2.1 = 4
    · have h1 : ¬ (messageLocalDate m).2.2 = 1 := fun h1 => hnot ⟨h4, h1⟩
      simp [check_message, hb, he, h4, h1]
    · simp [check_message, hb, he, h4]

/-- Witness for `C8_validator`: a bot message on April 1 (rejected), an
edited message (rejected), a human off-token message on 2023-04-01 KST
(accepted via the free-pass date), and a human token message on
2024-01-01 KST (accepted via the content rule). -/
theorem C8_validator_witness :
    check_message ⟨true, false, "으어어", 1680274800000⟩ = false ∧
    check_message ⟨false, true, "으어어", 1704034800000⟩ = false ∧
    check_message ⟨false, false, "hello", 1680274800000⟩ = true ∧
    (check_message ⟨false, false, "으어어", 1704034800000⟩ = true ↔
      ("으어어" : String) = EUEOEO) :=
  ⟨(C8_validator ⟨true, false, "으어어", 1680274800000⟩).1 rfl,
   (C8_validator ⟨false, true, "으어어", 1704034800000⟩).2.1 rfl,
   (C8_validator ⟨false, false, "hello", 1680274800000⟩).2.2.1 rfl rfl
     (by decide) (by decide),
   (C8_validator ⟨false, false, "으어어", 1704034800000⟩).2.2.2 rfl rfl
     (by decide)⟩

/-! ## Consecutive-day runs (infrastructure for C7) -/

theorem localDayOfSec_dayStartTs (k : Int) : localDayOfSec (dayStartTs k) = k := by
  unfold localDayOfSec dayStartTs
  have h : k * 86400 - 9 * 3600 + 9 * 3600 = k * 86400 := by ring
  rw [h]
  exact Int.mul_fdiv_cancel k (by norm_num)

theorem msgDay_mk (idv uidv k : Int) :
    msgDay ⟨idv, uidv, dayStartTs k * 1000⟩ = k := by
  unfold msgDay
  rw [Int.mul_fdiv_cancel _ (by norm_num : (1000:Int) ≠ 0)]
  exact localDayOfSec_dayStartTs k

theorem hasMessage_eq_false_of_lt (db : DbState) (mid : Int)
    (h : ∀ r ∈ db.history, r.message_id < mid) :
    hasMessage db mid = false := by
  rw [hasMessage_eq_false_iff]
  intro hmem
  rw [List.mem_map] at hmem
  obtain ⟨r, hr, hrid⟩ := hmem
  exact absurd hrid (ne_of_lt (h r hr))

/-- One consecutive-day step of `incr_counter`: when the actor's
`last_date` is exactly the event's previous day, the streak increments
and the longest streak takes the max. -/
theorem incr_counter_consecutive (db : DbState) (msg : EventMsg)
    (data : UserRow)
    (hid : hasMessage db msg.id = false)
    (hu : findUser db.users msg.author_id = some data)
    (hl : data.last_date = some (dayStartTs (msgDay msg - 1))) :
    (incr_counter db msg).1 = .accepted ∧
    findUser (incr_counter db msg).2.users msg.author_id =
      some { data with
               count := data.count + 1,
               longest_streaks := max data.longest_streaks (data.current_streaks + 1),
               current_streaks := data.current_streaks + 1,
               last_date := some (dayStartTs (msgDay msg)) } ∧
    (incr_counter db msg).2.history =
      ⟨msg.id, msg.author_id, dayStartTs (msgDay msg)⟩ :: db.history := by
  rw [incr_counter_known db msg data hid hu]
  refine ⟨rfl, ?_, rfl⟩
  rw [findUser_updateUser_self, hu]
  simp [hl]

/-- State invariant of a consecutive-day run: after `n` events the
actor's row shows `current + n`, `last_date` on day `d + n`, a
non-decreased longest streak, and all history ids below `base + n`. -/
theorem consec_run_state (db : DbState) (uid base d : Int) (u : UserRow)
    (n : Nat)
    (hu : findUser db.users uid = some u)
    (hlast : u.last_date = some (dayStartTs d))
    (hfresh : ∀ r ∈ db.history, r.message_id < base) :
    ∃ u', findUser (runMsgs db (consecMsgs uid base d n)).users uid = some u' ∧
      u'.current_streaks = u.current_streaks + n ∧
      u'.last_date = some (dayStartTs (d + n)) ∧
      u.longest_streaks ≤ u'.longest_streaks ∧
      ∀ r ∈ (runMsgs db (consecMsgs uid base d n)).history,
        r.message_id < base + n := by
  induction n with
  | zero =>
    refine ⟨u, ?_, by simp, by simpa using hlast, le_refl _, ?_⟩
    · simpa [consecMsgs, runMsgs] using hu
    · simpa [consecMsgs, runMsgs] using hfresh
  | succ n ih =>
    obtain ⟨un, hun, hcur, hlastn, hlong, hhist⟩ := ih
    have hsplit : consecMsgs uid base d (n + 1) =
        consecMsgs uid base d n ++
          [⟨base + n, uid, dayStartTs (d + 1 + n) * 1000⟩] := by
      simp [consecMsgs, List.range_succ]
    have hstep : runMsgs db (consecMsgs uid base d (n + 1)) =
        (incr_counter (runMsgs db (consecMsgs uid base d n))
          ⟨base + n, uid, dayStartTs (d + 1 + n) * 1000⟩).2 := by
      rw [hsplit]
      unfold runMsgs
      rw [List.foldl_append]
      rfl
    have hday : msgDay (⟨base + n, uid, dayStartTs (d + 1 + n) * 1000⟩ : EventMsg)
        = d + 1 + n := msgDay_mk _ _ _
    have hfreshn : hasMessage (runMsgs db (consecMsgs uid base d n))
        (base + (n : Int)) = false :=
      hasMessage_eq_false_of_lt _ _ hhist
    have hln : un.last_date =
        some (dayStartTs
          (msgDay (⟨base + n, uid, dayStartTs (d + 1 + n) * 1000⟩ : EventMsg) - 1)) := by
      rw [hday]
      have harg : d + 1 + (n : Int) - 1 = d + n := by ring
      rw [harg]
      exact hlastn
    have hcons := incr_counter_consecutive
      (runMsgs db (consecMsgs uid base d n))
      ⟨base + n, uid, dayStartTs (d + 1 + n) * 1000⟩ un hfreshn hun hln
    obtain ⟨-, hfind, hhist'⟩ := hcons
    rw [hstep]
    refine ⟨_, hfind, ?_, ?_, ?_, ?_⟩
    · show un.current_streaks + 1 = u.current_streaks + ((n : Nat) + 1 : Nat)
      rw [hcur]
      push_cast
      ring
    · show some (dayStartTs (msgDay (⟨base + n, uid, dayStartTs (d + 1 + n) * 1000⟩ : EventMsg)))
        = some (dayStartTs (d + ((n : Nat) + 1 : Nat)))
      rw [hday]
      have harg : d + 1 + (n : Int) = d + ((n : Nat) + 1 : Nat) := by
        push_cast
        ring
      rw [harg]
    · exact le_trans hlong (le_max_left _ _)
    · rw [hhist']
      intro r hr
      rcases List.mem_cons.mp hr with hhead | htail
      · rw [hhead]
        push_cast
        omega
      · have := hhist r htail
        push_cast
        push_cast at this
        omega

/-! ## Claim C7 — consecutive-day streak increments -/

/-- Claim C7 (confirmed): (1) an accepted event whose date is
`last_date + 1 day` sets `current_streak` to `prior_current + 1` and
`longest_streak` to `max(prior_longest, new current)`; (2) over any
sequence of consecutive-day events for one participant, each event
increases `current_streak` by exactly 1 and `longest_streak` never
decreases. -/
theorem C7_consecutive_streak :
    (∀ (db : DbState) (msg : EventMsg) (data : UserRow),
      hasMessage db msg.id = false →
      findUser db.users msg.author_id = some data →
      data.last_date = some (dayStartTs (msgDay msg - 1)) →
      (incr_counter db msg).1 = .accepted ∧
      findUser (incr_counter db msg).2.users msg.author_id =
        some { data with
                 count := data.count + 1,
                 longest_streaks :=
                   max data.longest_streaks (data.current_streaks + 1),
                 current_streaks := data.current_streaks + 1,
                 last_date := some (dayStartTs (msgDay msg)) }) ∧
    (∀ (db : DbState) (uid base d : Int) (u : UserRow) (n : Nat),
      findUser db.users uid = some u →
      u.last_date = some (dayStartTs d) →
      (∀ r ∈ db.history, r.message_id < base) →
      ∀ i : Nat, i < n →
        ∃ ui ui',
          findUser (runMsgs db (consecMsgs uid base d i)).users uid = some ui ∧
          findUser (runMsgs db (consecMsgs uid base d (i + 1))).users uid
            = some ui' ∧
          ui'.current_streaks = ui.current_streaks + 1 ∧
          ui'.longest_streaks = max ui.longest_streaks ui'.current_streaks ∧
          ui.longest_streaks ≤ ui'.longest_streaks) := by
  constructor
  · intro db msg data hid hu hl
    exact ⟨(incr_counter_consecutive db msg data hid hu hl).1,
      (incr_counter_consecutive db msg data hid hu hl).2.1⟩
  · intro db uid base d u n hu hlast hfresh i _
    obtain ⟨ui, hui, hcuri, hlasti, hlongi, hhisti⟩ :=
      consec_run_state db uid base d u i hu hlast hfresh
    have hsplit : consecMsgs uid base d (i + 1) =
        consecMsgs uid base d i ++
          [⟨base + i, uid, dayStartTs (d + 1 + i) * 1000⟩] := by
      simp [consecMsgs, List.range_succ]
    have hstep : runMsgs db (consecMsgs uid base d (i + 1)) =
        (incr_counter (runMsgs db (consecMsgs uid base d i))
          ⟨base + i, uid, dayStartTs (d + 1 + i) * 1000⟩).2 := by
      rw [hsplit]
      unfold runMsgs
      rw [List.foldl_append]
      rfl
    have hday : msgDay (⟨base + i, uid, dayStartTs (d + 1 + i) * 1000⟩ : EventMsg)
        = d + 1 + i := msgDay_mk _ _ _
    have hfreshi : hasMessage (runMsgs db (consecMsgs uid base d i))
        (base + (i : Int)) = false :=
      hasMessage_eq_false_of_lt _ _ hhisti
    have hli : ui.last_date =
        some (dayStartTs
          (msgDay (⟨base + i, uid, dayStartTs (d + 1 + i) * 1000⟩ : EventMsg) - 1)) := by
      rw [hday]
      have harg : d + 1 + (i : Int) - 1 = d + i := by ring
      rw [harg]
      exact hlasti
    have hcons := incr_counter_consecutive
      (runMsgs db (consecMsgs uid base d i))
      ⟨base + i, uid, dayStartTs (d + 1 + i) * 1000⟩ ui hfreshi hui hli
    refine ⟨ui,
      { ui with
          count := ui.count + 1,
          longest_streaks := max ui.longest_streaks (ui.current_streaks + 1),
          current_streaks := ui.current_streaks + 1,
          last_date := some (dayStartTs (msgDay
            (⟨base + i, uid, dayStartTs (d + 1 + i) * 1000⟩ : EventMsg))) },
      hui, ?_, rfl, rfl, le_max_left _ _⟩
    rw [hstep]
    exact hcons.2.1

/-- Witness for `C7_consecutive_streak`: part (1) at a participant with
state `(longest = 4, current = 2, last_date = 2024-01-01 KST)` receiving
a valid event on 2024-01-02 KST, and part (2) at a one-event
consecutive run for a participant whose `last_date` is 2023-12-31 KST. -/
theorem C7_consecutive_streak_witness :
    ((incr_counter
        { history := [], users := [(1, ⟨"A", 3, 4, 2, some (dayStartTs 19722)⟩)] }
        ⟨100, 1, dayStartTs 19723 * 1000⟩).1 = .accepted ∧
      findUser
        (incr_counter
          { history := [], users := [(1, ⟨"A", 3, 4, 2, some (dayStartTs 19722)⟩)] }
          ⟨100, 1, dayStartTs 19723 * 1000⟩).2.users 1 =
        some ⟨"A", 3 + 1, max 4 (2 + 1), 2 + 1,
          some (dayStartTs (msgDay ⟨100, 1, dayStartTs 19723 * 1000⟩))⟩) ∧
    (∃ ui ui',
      findUser
        (runMsgs { history := [], users := [(1, ⟨"A", 0, 0, 5, some (dayStartTs 19722)⟩)] }
          (consecMsgs 1 100 19722 0)).users 1 = some ui ∧
      findUser
        (runMsgs { history := [], users := [(1, ⟨"A", 0, 0, 5, some (dayStartTs 19722)⟩)] }
          (consecMsgs 1 100 19722 (0 + 1))).users 1 = some ui' ∧
      ui'.current_streaks = ui.current_streaks + 1 ∧
      ui'.longest_streaks = max ui.longest_streaks ui'.current_streaks ∧
      ui.longest_streaks ≤ ui'.longest_streaks) :=
  ⟨C7_consecutive_streak.1
      { history := [], users := [(1, ⟨"A", 3, 4, 2, some (dayStartTs 19722)⟩)] }
      ⟨100, 1, dayStartTs 19723 * 1000⟩
      ⟨"A", 3, 4, 2, some (dayStartTs 19722)⟩ rfl rfl (by decide),
   C7_consecutive_streak.2
      { history := [], users := [(1, ⟨"A", 0, 0, 5, some (dayStartTs 19722)⟩)] }
      1 100 19722 ⟨"A", 0, 0, 5, some (dayStartTs 19722)⟩ 1 rfl rfl
      (by simp) 0 (by decide)⟩


/-! ## Claim C10 — longest-streak monotonicity and count increments -/

theorem acceptedCountFor_cons (uid : Int) (m : EventMsg) (t : List EventMsg)
    (r : RecordResult) (rs : List RecordResult) :
    acceptedCountFor uid (m :: t) (r :: rs) =
      (if m.author_id = uid ∧ r = RecordResult.accepted then 1 else 0) +
        acceptedCountFor uid t rs := by
  by_cases h1 : m.author_id = uid
  · by_cases h2 : r = RecordResult.accepted
    · simp [acceptedCountFor, h1, h2]
      omega
    · simp [acceptedCountFor, h1, h2]
  · simp [acceptedCountFor, h1]

theorem runTrace_cons (db : DbState) (m : EventMsg) (t : List EventMsg) :
    runTrace db (m :: t) =
      ((incr_counter db m).1 :: (runTrace (incr_counter db m).2 t).1,
        (runTrace (incr_counter db m).2 t).2) := rfl

/-- Claim C10 (confirmed): across any sequence of events processed by
`incr_counter` — whatever their dates or arrival order — a participant's
`longest_streaks` never decreases, and their `count` grows by exactly the
number of events of that participant that were accepted. -/
theorem C10_longest_monotone_count (db : DbState) (msgs : List EventMsg)
    (uid : Int) (u : UserRow)
    (hu : findUser db.users uid = some u) :
    ∃ u', findUser (runTrace db msgs).2.users uid = some u' ∧
      u.longest_streaks ≤ u'.longest_streaks ∧
      u'.count = u.count + acceptedCountFor uid msgs (runTrace db msgs).1 := by
  induction msgs generalizing db u with
  | nil =>
    exact ⟨u, hu, le_refl _, by simp [runTrace, acceptedCountFor]⟩
  | cons m t ih =>
    rcases Bool.eq_false_or_eq_true (hasMessage db m.id) with hdup | hdup
    · -- duplicate event id: state unchanged, outcome `duplicate`
      have hstep := incr_counter_dup db m hdup
      obtain ⟨u', h1, h2, h3⟩ := ih db u hu
      refine ⟨u', ?_, h2, ?_⟩
      · rw [runTrace_cons, hstep]
        exact h1
      · rw [runTrace_cons, hstep, acceptedCountFor_cons]
        simpa using h3
    · -- fresh event id
      cases hu2 : findUser db.users m.author_id with
      | none =>
        have hstep := incr_counter_unknown db m hdup hu2
        obtain ⟨u', h1, h2, h3⟩ := ih
          { db with history :=
              ⟨m.id, m.author_id, dayStartTs (msgDay m)⟩ :: db.history } u hu
        refine ⟨u', ?_, h2, ?_⟩
        · rw [runTrace_cons, hstep]
          exact h1
        · rw [runTrace_cons, hstep, acceptedCountFor_cons]
          simpa using h3
      | some data =>
        have hstep := incr_counter_known db m data hdup hu2
        by_cases hauth : m.author_id = uid
        · subst hauth
          have hdata : data = u := by
            rw [hu2] at hu
            exact Option.some.inj hu
          subst hdata
          have hfound : findUser (incr_counter db m).2.users m.author_id =
              some { data with
                count := data.count + 1,
                longest_streaks :=
                  if data.last_date = some (dayStartTs (msgDay m - 1)) then
                    max data.longest_streaks (data.current_streaks + 1)
                  else data.longest_streaks,
                current_streaks :=
                  if data.last_date = some (dayStartTs (msgDay m - 1)) then
                    data.current_streaks + 1
                  else 1,
                last_date := some (dayStartTs (msgDay m)) } := by
            rw [hstep]
            rw [findUser_updateUser_self]
            rw [hu2]
            rfl
          obtain ⟨u', h1, h2, h3⟩ := ih (incr_counter db m).2 _ hfound
          refine ⟨u', ?_, ?_, ?_⟩
          · rw [runTrace_cons]
            exact h1
          · refine le_trans ?_ h2
            by_cases hc : data.last_date = some (dayStartTs (msgDay m - 1)) <;>
              simp [hc, le_max_left]
          · rw [runTrace_cons]
            rw [acceptedCountFor_cons]
            have hr1 : (incr_counter db m).1 = RecordResult.accepted := by
              rw [hstep]
            rw [hr1]
            simp only [and_self, if_pos, true_and]
            simp at h3
            rw [h3]
            ring
        · have hne : uid ≠ m.author_id := fun hc => hauth hc.symm
          have hfound : findUser (incr_counter db m).2.users uid = some u := by
            rw [hstep]
            rw [findUser_updateUser_ne _ _ _ _ hne]
            exact hu
          obtain ⟨u', h1, h2, h3⟩ := ih (incr_counter db m).2 u hfound
          refine ⟨u', ?_, h2, ?_⟩
          · rw [runTrace_cons]
            exact h1
          · rw [runTrace_cons]
            rw [acceptedCountFor_cons]
            rw [if_neg (fun hc => hauth hc.1)]
            simpa using h3

/-- Witness for `C10_longest_monotone_count`: a two-event run (one
accepted event and one duplicate of it) for a concrete registered
participant. -/
theorem C10_longest_monotone_count_witness :
    ∃ u', findUser
        (runTrace { history := [], users := [(1, freshUserRow "A")] }
          [⟨100, 1, dayStartTs 19723 * 1000⟩,
           ⟨100, 1, dayStartTs 19723 * 1000⟩]).2.users 1 = some u' ∧
      (freshUserRow "A").longest_streaks ≤ u'.longest_streaks ∧
      u'.count = (freshUserRow "A").count +
        acceptedCountFor 1
          [⟨100, 1, dayStartTs 19723 * 1000⟩,
           ⟨100, 1, dayStartTs 19723 * 1000⟩]
          (runTrace { history := [], users := [(1, freshUserRow "A")] }
            [⟨100, 1, dayStartTs 19723 * 1000⟩,
             ⟨100, 1, dayStartTs 19723 * 1000⟩]).1 :=
  C10_longest_monotone_count { history := [], users := [(1, freshUserRow "A")] }
    [⟨100, 1, dayStartTs 19723 * 1000⟩, ⟨100, 1, dayStartTs 19723 * 1000⟩]
    1 (freshUserRow "A") rfl

/-! ## Claim C4 infrastructure — characterizing the missing-day walk -/

theorem advanceWindows_acc_aux (item : Int) :
    ∀ fuel : Nat, ∀ c0 : Int, ∀ acc : List Int,
      (item + 1 - c0).toNat ≤ fuel →
      (advanceWindows item c0 acc).2 = acc ++ (advanceWindows item c0 []).2 := by
  intro fuel
  induction fuel with
  | zero =>
    intro c0 acc h
    have hstop : ¬ c0 ≤ item := by omega
    rw [advanceWindows_stop _ _ _ hstop, advanceWindows_stop _ _ _ hstop]
    simp
  | succ fuel ih =>
    intro c0 acc h
    by_cases hc : c0 ≤ item
    · have hd : (0 : Int) < dayDelta := dayDelta_pos
      have hm : (item + 1 - (c0 + dayDelta)).toNat ≤ fuel := by omega
      rw [advanceWindows_step _ _ _ hc, advanceWindows_step _ _ _ hc]
      by_cases hp : c0 + dayDelta < item
      · simp only [if_pos hp, List.nil_append]
        rw [ih (c0 + dayDelta) (acc ++ [c0]) hm]
        rw [ih (c0 + dayDelta) [c0] hm]
        simp
      · simp only [if_neg hp]
        exact ih (c0 + dayDelta) acc hm
    · rw [advanceWindows_stop _ _ _ hc, advanceWindows_stop _ _ _ hc]
      simp

theorem advanceWindows_acc (item c0 : Int) (acc : List Int) :
    (advanceWindows item c0 acc).2 = acc ++ (advanceWindows item c0 []).2 :=
  advanceWindows_acc_aux item ((item + 1 - c0).toNat) c0 acc (le_refl _)

theorem advanceWindows_fst_aux (item : Int) :
    ∀ fuel : Nat, ∀ c0 : Int, ∀ acc : List Int,
      (item + 1 - c0).toNat ≤ fuel →
      item < (advanceWindows item c0 acc).1 ∧
      (∃ m : Nat, (advanceWindows item c0 acc).1 = c0 + m * dayDelta) ∧
      (∀ k : Nat, item < c0 + k * dayDelta →
        (advanceWindows item c0 acc).1 ≤ c0 + k * dayDelta) := by
  intro fuel
  induction fuel with
  | zero =>
    intro c0 acc h
    have hstop : ¬ c0 ≤ item := by omega
    rw [advanceWindows_stop _ _ _ hstop]
    refine ⟨by omega, ⟨0, by simp⟩, ?_⟩
    intro k _
    have hk : (0 : Int) ≤ (k : Int) * dayDelta :=
      mul_nonneg (Int.natCast_nonneg k) (le_of_lt dayDelta_pos)
    omega
  | succ fuel ih =>
    intro c0 acc h
    by_cases hc : c0 ≤ item
    · have hd : (0 : Int) < dayDelta := dayDelta_pos
      have hm : (item + 1 - (c0 + dayDelta)).toNat ≤ fuel := by omega
      rw [advanceWindows_step _ _ _ hc]
      obtain ⟨h1, ⟨m, hmv⟩, hmin⟩ := ih (c0 + dayDelta)
        (if c0 + dayDelta < item then acc ++ [c0] else acc) hm
      refine ⟨h1, ⟨m + 1, ?_⟩, ?_⟩
      · rw [hmv]
        push_cast
        ring
      · intro k hk
        cases k with
        | zero =>
          simp at hk
          omega
        | succ k' =>
          have hcast : c0 + ((k' + 1 : Nat) : Int) * dayDelta =
              (c0 + dayDelta) + (k' : Int) * dayDelta := by
            push_cast
            ring
          rw [hcast]
          rw [hcast] at hk
          exact hmin k' hk
    · rw [advanceWindows_stop _ _ _ hc]
      refine ⟨by omega, ⟨0, by simp⟩, ?_⟩
      intro k _
      have hk : (0 : Int) ≤ (k : Int) * dayDelta :=
        mul_nonneg (Int.natCast_nonneg k) (le_of_lt dayDelta_pos)
      omega

theorem advanceWindows_fst (item c0 : Int) (acc : List Int) :
    item < (advanceWindows item c0 acc).1 ∧
    (∃ m : Nat, (advanceWindows item c0 acc).1 = c0 + m * dayDelta) ∧
    (∀ k : Nat, item < c0 + k * dayDelta →
      (advanceWindows item c0 acc).1 ≤ c0 + k * dayDelta) :=
  advanceWindows_fst_aux item ((item + 1 - c0).toNat) c0 acc (le_refl _)

theorem advanceWindows_mem_aux (item : Int) :
    ∀ fuel : Nat, ∀ c0 : Int, (item + 1 - c0).toNat ≤ fuel → ∀ c : Int,
      (c ∈ (advanceWindows item c0 []).2 ↔
        (∃ k : Nat, c = c0 + k * dayDelta) ∧ c + dayDelta < item) := by
  intro fuel
  induction fuel with
  | zero =>
    intro c0 h c
    have hstop : ¬ c0 ≤ item := by omega
    rw [advanceWindows_stop _ _ _ hstop]
    simp only [List.not_mem_nil, false_iff]
    rintro ⟨⟨k, hk⟩, hlt⟩
    have hnn : (0 : Int) ≤ (k : Int) * dayDelta :=
      mul_nonneg (Int.natCast_nonneg k) (le_of_lt dayDelta_pos)
    have hgt : item < c0 := lt_of_not_ge hstop
    have hd : (0 : Int) < dayDelta := dayDelta_pos
    linarith [hk, hlt, hnn, hgt, hd]
  | succ fuel ih =>
    intro c0 h c
    by_cases hc : c0 ≤ item
    · have hd : (0 : Int) < dayDelta := dayDelta_pos
      have hm : (item + 1 - (c0 + dayDelta)).toNat ≤ fuel := by omega
      rw [advanceWindows_step _ _ _ hc]
      rw [advanceWindows_acc]
      rw [List.mem_append]
      rw [ih (c0 + dayDelta) hm c]
      by_cases hp : c0 + dayDelta < item
      · simp only [if_pos hp, List.nil_append, List.mem_singleton]
        constructor
        · rintro (hceq | ⟨⟨k, hk⟩, hlt⟩)
          · subst hceq
            exact ⟨⟨0, by simp⟩, hp⟩
          · exact ⟨⟨k + 1, by rw [hk]; push_cast; ring⟩, hlt⟩
        · rintro ⟨⟨k, hk⟩, hlt⟩
          cases k with
          | zero =>
            left
            simpa using hk
          | succ k' =>
            right
            refine ⟨⟨k', ?_⟩, hlt⟩
            rw [hk]
            push_cast
            ring
      · simp only [if_neg hp, List.not_mem_nil, false_or]
        constructor
        · rintro ⟨⟨k, hk⟩, hlt⟩
          exact ⟨⟨k + 1, by rw [hk]; push_cast; ring⟩, hlt⟩
        · rintro ⟨⟨k, hk⟩, hlt⟩
          cases k with
          | zero =>
            exfalso
            apply hp
            have hc0 : c = c0 := by simpa using hk
            rw [hc0] at hlt
            exact hlt
          | succ k' =>
            refine ⟨⟨k', ?_⟩, hlt⟩
            rw [hk]
            push_cast
            ring
    · rw [advanceWindows_stop _ _ _ hc]
      simp only [List.not_mem_nil, false_iff]
      rintro ⟨⟨k, hk⟩, hlt⟩
      have hnn : (0 : Int) ≤ (k : Int) * dayDelta :=
        mul_nonneg (Int.natCast_nonneg k) (le_of_lt dayDelta_pos)
      have hgt : item < c0 := lt_of_not_ge hc
      have hd : (0 : Int) < dayDelta := dayDelta_pos
      linarith [hk, hlt, hnn, hgt, hd]

theorem advanceWindows_mem (item c0 c : Int) :
    c ∈ (advanceWindows item c0 []).2 ↔
      (∃ k : Nat, c = c0 + k * dayDelta) ∧ c + dayDelta < item :=
  advanceWindows_mem_aux item ((item + 1 - c0).toNat) c0 (le_refl _) c

theorem missingWalk_fold_mem (hs : List Int) :
    ∀ c0 : Int, ∀ acc : List Int,
      hs.Pairwise (· ≤ ·) →
      ∀ c : Int,
        (c ∈ (hs.foldl (fun s item => advanceWindows item s.1 s.2) (c0, acc)).2 ↔
          c ∈ acc ∨
            ((∃ k : Nat, c = c0 + k * dayDelta) ∧
             (∀ h ∈ hs, ¬ (c ≤ h ∧ h ≤ c + dayDelta)) ∧
             (∃ h ∈ hs, c + dayDelta < h))) := by
  induction hs with
  | nil =>
    intro c0 acc _ c
    simp
  | cons x t iht =>
    intro c0 acc hsorted c
    have hsort_t : t.Pairwise (· ≤ ·) := (List.pairwise_cons.mp hsorted).2
    have hx_le : ∀ y ∈ t, x ≤ y := (List.pairwise_cons.mp hsorted).1
    obtain ⟨hfgt, ⟨m, hfm⟩, hfmin⟩ := advanceWindows_fst x c0 acc
    have hd : (0 : Int) < dayDelta := dayDelta_pos
    have hfold : ((x :: t).foldl (fun s item => advanceWindows item s.1 s.2) (c0, acc)) =
        (t.foldl (fun s item => advanceWindows item s.1 s.2)
          ((advanceWindows x c0 acc).1, (advanceWindows x c0 acc).2)) := rfl
    rw [hfold]
    rw [iht (advanceWindows x c0 acc).1 (advanceWindows x c0 acc).2 hsort_t c]
    rw [advanceWindows_acc x c0 acc]
    rw [List.mem_append]
    rw [advanceWindows_mem x c0 c]
    constructor
    · rintro ((hacc | ⟨⟨k, hk⟩, hlt⟩) | ⟨⟨k, hk⟩, hnoT, ⟨y, hyt, hygt⟩⟩)
      · exact Or.inl hacc
      · refine Or.inr ⟨⟨k, hk⟩, ?_, ⟨x, List.mem_cons_self x t, hlt⟩⟩
        intro z hz
        rintro ⟨h1, h2⟩
        rcases List.mem_cons.mp hz with hzx | hzt
        · subst hzx
          linarith
        · have := hx_le z hzt
          linarith
      · have hnn : (0 : Int) ≤ (k : Int) * dayDelta :=
          mul_nonneg (Int.natCast_nonneg k) (le_of_lt dayDelta_pos)
        refine Or.inr ⟨⟨m + k, ?_⟩, ?_, ⟨y, List.mem_cons_of_mem x hyt, hygt⟩⟩
        · rw [hk, hfm]
          push_cast
          ring
        · intro z hz
          rintro ⟨h1, h2⟩
          rcases List.mem_cons.mp hz with hzx | hzt
          · subst hzx
            linarith [hk, hfgt]
          · exact hnoT z hzt ⟨h1, h2⟩
    · rintro (hacc | ⟨⟨k, hk⟩, hno, ⟨y, hy, hygt⟩⟩)
      · exact Or.inl (Or.inl hacc)
      · by_cases hcA : c < (advanceWindows x c0 acc).1
        · refine Or.inl (Or.inr ⟨⟨k, hk⟩, ?_⟩)
          by_contra hnlt
          push_neg at hnlt
          by_cases hcx : c ≤ x
          · exact hno x (List.mem_cons_self x t) ⟨hcx, hnlt⟩
          · push_neg at hcx
            have hxlt : x < c0 + (k : Int) * dayDelta := by
              rw [← hk]
              exact hcx
            have hA1le := hfmin k hxlt
            rw [← hk] at hA1le
            linarith
        · push_neg at hcA
          have hm_le_k : m ≤ k := by
            by_contra hltk
            push_neg at hltk
            have hmul : (k : Int) * dayDelta < (m : Int) * dayDelta := by
              apply mul_lt_mul_of_pos_right _ dayDelta_pos
              exact_mod_cast hltk
            rw [hfm] at hcA
            rw [hk] at hcA
            linarith
          have hk' : c = (advanceWindows x c0 acc).1 + ((k - m : Nat) : Int) * dayDelta := by
            rw [hk, hfm]
            push_cast [Nat.cast_sub hm_le_k]
            ring
          refine Or.inr ⟨⟨k - m, hk'⟩,
            fun z hzt => hno z (List.mem_cons_of_mem x hzt), ?_⟩
          rcases List.mem_cons.mp hy with hyx | hyt
          · exfalso
            subst hyx
            linarith
          · exact ⟨y, hyt, hygt⟩

/-! ## Claim C4 — missing-day enumeration -/

/-- Claim C4, counterexample: a 2-day range starting at snowflake 0 with
one event (id 5, inside day-window 0).  `missing_count = 2 - 1 = 1 < 10`
selects detail mode, yet the walk returns the empty list even though
day-window 1 (`[dayDelta, 2*dayDelta)`) contains zero of the
participant's event ids: windows after the last event are never
examined, so the detailed list is not the list of all empty windows. -/
theorem C4_missing_days_counterexample :
    missing_days 2 0 [5] = MissingDays.Detailed [] ∧
    (∀ h ∈ [(5 : Int)], ¬ (dayDelta ≤ h ∧ h < 2 * dayDelta)) := by
  have hstep : advanceWindows 5 0 [] = (0 + dayDelta, []) := by
    rw [advanceWindows_step 5 0 [] (by norm_num)]
    rw [if_neg (by norm_num [dayDelta, duration_into_snowflakes] :
      ¬ ((0 : Int) + dayDelta < 5))]
    rw [advanceWindows_stop _ _ _ (by norm_num [dayDelta, duration_into_snowflakes] :
      ¬ ((0 : Int) + dayDelta ≤ 5))]
  have hwalk : missingWalk 0 [5] = [] := by
    unfold missingWalk
    simp only [List.foldl]
    rw [hstep]
  constructor
  · unfold missing_days
    rw [if_pos (by norm_num [DETAIL_LIMIT_COUNT] :
      (2 : Int) - ([(5 : Int)] : List Int).length < DETAIL_LIMIT_COUNT)]
    rw [hwalk]
  · intro h hh
    have h5 : h = 5 := by simpa using hh
    subst h5
    rintro ⟨hge, -⟩
    have : (5 : Int) < dayDelta := by
      norm_num [dayDelta, duration_into_snowflakes]
    linarith

/-- Claim C4 (amended): `missing_count` is `days - yearly_count`; below
the detail threshold (10) the result is `Detailed` of the window walk,
otherwise `Count missing_count`.  The walk lists exactly those day-window
starts `c` (on the day grid from the range start) such that no event id
lies in the CLOSED interval `[c, c + dayDelta]` and some event id
exceeds `c + dayDelta`: an empty window is reported only when a later
event id exists, so trailing missing days (after the participant's last
event) are never listed, and a window whose end boundary equals an event
id is treated as covered. -/
theorem C4_missing_days_characterization (days beginSf : Int)
    (history : List Int) (c : Int)
    (hsorted : history.Pairwise (· ≤ ·)) :
    (days - history.length < DETAIL_LIMIT_COUNT →
      missing_days days beginSf history =
        MissingDays.Detailed (missingWalk beginSf history)) ∧
    (¬ (days - history.length < DETAIL_LIMIT_COUNT) →
      missing_days days beginSf history =
        MissingDays.Count (days - history.length)) ∧
    (c ∈ missingWalk beginSf history ↔
      (∃ k : Nat, c = beginSf + k * dayDelta) ∧
      (∀ h ∈ history, ¬ (c ≤ h ∧ h ≤ c + dayDelta)) ∧
      (∃ h ∈ history, c + dayDelta < h)) := by
  refine ⟨?_, ?_, ?_⟩
  · intro h
    simp [missing_days, h]
  · intro h
    simp [missing_days, h]
  · have hmem := missingWalk_fold_mem history beginSf [] hsorted c
    simpa [missingWalk] using hmem

/-- Witness for `C4_missing_days_characterization`: a 3-day range from
snowflake 0 with events on day 0 (id 1) and day 2 (id `2*dayDelta + 1`),
at the middle window start `c = dayDelta`. -/
theorem C4_missing_days_characterization_witness :
    ((3 : Int) - ([1, 2 * dayDelta + 1] : List Int).length < DETAIL_LIMIT_COUNT →
      missing_days 3 0 [1, 2 * dayDelta + 1] =
        MissingDays.Detailed (missingWalk 0 [1, 2 * dayDelta + 1])) ∧
    (¬ ((3 : Int) - ([1, 2 * dayDelta + 1] : List Int).length < DETAIL_LIMIT_COUNT) →
      missing_days 3 0 [1, 2 * dayDelta + 1] =
        MissingDays.Count (3 - ([1, 2 * dayDelta + 1] : List Int).length)) ∧
    (dayDelta ∈ missingWalk 0 [1, 2 * dayDelta + 1] ↔
      (∃ k : Nat, dayDelta = 0 + k * dayDelta) ∧
      (∀ h ∈ ([1, 2 * dayDelta + 1] : List Int),
        ¬ (dayDelta ≤ h ∧ h ≤ dayDelta + dayDelta)) ∧
      (∃ h ∈ ([1, 2 * dayDelta + 1] : List Int), dayDelta + dayDelta < h)) :=
  C4_missing_days_characterization 3 0 [1, 2 * dayDelta + 1] dayDelta
    (by norm_num [List.pairwise_cons, dayDelta, duration_into_snowflakes])
